import Mathlib

/-!
Verification of the P84 drawings app core logic (file `p84-app.py`).

The development shallowly embeds the pure logic of the program:

* `normaliza_matricula` (lines 168-178): identifier normalization;
* `carregar_whitelist` (lines 191-198): whitelist row normalization;
* `buscar_usuario_por_matricula` (lines 236-244): whitelist lookup;
* `login_accepts` (line 272): the login form's input validation;
* `buscar_desenho` (lines 320-322): drawing-name search;
* `ordenar_revisoes` (lines 324-327): revision ordering;
* `ultima_revisao` (lines 358-360): latest-revision selection.

Character-level Python primitives (`str.isdigit`, `str.isalpha`, the regex
classes `\d`/`\D`, `re.IGNORECASE`, string comparison) are modelled over the
ASCII range, which is the range the spec fixes for identifiers and revision
labels; Unicode digit/letter variants are outside the scope of this
embedding.  Tabular data (pandas DataFrames) is modelled as lists of records
with the string fields the code reads.
-/

/-- Python `str.isdigit` on an ASCII string: non-empty and every character a
decimal digit `0`-`9`. -/
def pyIsDigitStr (s : String) : Bool :=
  !s.data.isEmpty && s.data.all (fun c => c.isDigit)

/-- Python `str.isalpha` on an ASCII string: non-empty and every character a
letter `A`-`Z` or `a`-`z`. -/
def pyIsAlphaStr (s : String) : Bool :=
  !s.data.isEmpty && s.data.all (fun c => c.isAlpha)

/-- Value of a string of decimal digits, most significant digit first. -/
def natOfDigits (l : List Char) : Nat :=
  l.foldl (fun n c => 10 * n + (c.toNat - 48)) 0

/-- Python `int(s)` restricted to the digit-string fragment the program
exercises: defined (`some`) exactly on non-empty all-digit strings, and
`none` models the `ValueError` raised on anything else. -/
def int_py (s : String) : Option Nat :=
  if pyIsDigitStr s then some (natOfDigits s.data) else none

/-- Model of `re.sub(r"\D", "", s)` at line 175: delete every character that
is not an ASCII decimal digit (equivalently, keep exactly the digits). -/
def re_sub_nondigits (s : String) : String :=
  String.mk (s.data.filter (fun c => c.isDigit))

/-- Lines 168-178 (`normaliza_matricula`) at a string argument (for strings,
`str(valor)` is the identity; the `valor is None` guard lives in
`normaliza_matricula_py` below): keep only digits, then demand 1 to 5 of
them, returning the empty string as the Invalid marker. -/
def normaliza_matricula (valor : String) : String :=
  let s := re_sub_nondigits valor
  if s.length = 0 ∨ 5 < s.length then "" else s

/-- Python values that can reach `normaliza_matricula` through the dynamic
interface: `None`, a string, an integer, a boolean. -/
inductive PyVal where
  | none
  | str (s : String)
  | intV (n : Int)
  | boolV (b : Bool)
deriving DecidableEq

/-- Python `str()` on the embedded value kinds. -/
def str_py : PyVal → String
  | PyVal.none => "None"
  | PyVal.str s => s
  | PyVal.intV n => toString n
  | PyVal.boolV true => "True"
  | PyVal.boolV false => "False"

/-- Lines 168-178 (`normaliza_matricula`) at the full dynamic interface:
`None` short-circuits to the Invalid marker, every other value is coerced by
`str()` and then normalized. -/
def normaliza_matricula_py (valor : PyVal) : String :=
  if valor = PyVal.none then ""
  else
    let s := re_sub_nondigits (str_py valor)
    if s.length = 0 ∨ 5 < s.length then "" else s

/-- A whitelist row / user record: the three string columns the code reads
(`matricula`, `nome`, `funcao`).  The dict returned by
`buscar_usuario_por_matricula` has exactly these fields, so the same record
type models it. -/
structure UserRow where
  matricula : String
  nome : String
  funcao : String
deriving DecidableEq

/-- Lines 195-198 of `carregar_whitelist_xlsx`: normalize the `matricula`
column, drop rows whose matricula normalized to the Invalid marker, strip
whitespace from `nome` and `funcao`. -/
def carregar_whitelist (rows : List UserRow) : List UserRow :=
  (((rows.map (fun r => { r with matricula := normaliza_matricula r.matricula })).filter
      (fun r => r.matricula ≠ "")).map
    (fun r => { r with nome := r.nome.trim, funcao := r.funcao.trim }))

/-- Lines 236-244 (`buscar_usuario_por_matricula`): normalize the input,
return `none` on the Invalid marker without touching the whitelist,
otherwise select the rows whose `matricula` equals the normalized input
(`wl.loc[...]`), return `none` when that selection is empty, else build the
user dict from the first selected row (`row.iloc[0]`). -/
def buscar_usuario_por_matricula (m_input : String) (wl : List UserRow) : Option UserRow :=
  let m := normaliza_matricula m_input
  if m = "" then none
  else
    match wl.filter (fun r => r.matricula = m) with
    | [] => none
    | r :: _ => some ⟨r.matricula, r.nome, r.funcao⟩

/-- Line 272 of `login_view`: `re.fullmatch(r"\d{1,5}", matricula_input or "")`
succeeds — the whole input is 1 to 5 ASCII decimal digits.  (`x or ""` maps
`None` to `""`, which the regex rejects, so a `String` argument suffices.) -/
def login_accepts (matricula_input : String) : Bool :=
  decide (1 ≤ matricula_input.length) && decide (matricula_input.length ≤ 5)
    && matricula_input.data.all (fun c => c.isDigit)

/-- One character of a pattern against one character of text, under
`re.IGNORECASE`: the metacharacter `.` matches any character, a literal
character matches up to ASCII case. -/
def charMatchICase (p c : Char) : Bool :=
  p = '.' || p.toLower = c.toLower

/-- A whole pattern matches at the current position: each pattern character
consumes one text character. -/
def reMatchHere : List Char → List Char → Bool
  | [], _ => true
  | _ :: _, [] => false
  | p :: ps, c :: cs => charMatchICase p c && reMatchHere ps cs

/-- Python `re.search` with `re.IGNORECASE`, for patterns built from literal
characters and the `.` wildcard (the only regex fragment this development
instantiates): the pattern matches at some position of the text. -/
def re_search (pat : List Char) : List Char → Bool
  | [] => reMatchHere pat []
  | c :: cs => reMatchHere pat (c :: cs) || re_search pat cs

/-- Line 321: `Series.str.contains(termo, case=False, na=False)` on one
string entry — the term is interpreted as a regular expression and searched
for case-insensitively. -/
def str_contains_regex_icase (termo s : String) : Bool :=
  re_search termo.data s.data

/-- A row of the drawings table: the two columns the code reads, already
coerced to strings (`astype(str)`; `na=False` needs no separate case since
entries are strings here). -/
structure DrawingRow where
  desenho : String
  revisao : String
deriving DecidableEq

/-- Lines 320-322 (`buscar_desenho`): keep the rows whose `DESENHO` field
matches the term. -/
def buscar_desenho (df : List DrawingRow) (termo : String) : List DrawingRow :=
  df.filter (fun row => str_contains_regex_icase termo row.desenho)

/-- One pattern character against one text character as a LITERAL, up to
ASCII case ( no wildcard). -/
def litCharICase (p c : Char) : Bool :=
  p.toLower = c.toLower

/-- Literal prefix match, case-insensitive. -/
def litMatchHere : List Char → List Char → Bool
  | [], _ => true
  | _ :: _, [] => false
  | p :: ps, c :: cs => litCharICase p c && litMatchHere ps cs

/-- Literal substring containment, case-insensitive. -/
def litSubstr (pat : List Char) : List Char → Bool
  | [] => litMatchHere pat []
  | c :: cs => litMatchHere pat (c :: cs) || litSubstr pat cs

/-- Modelled from the spec: "a row matches iff its drawing-name field
contains `term` as a case-insensitive substring" — literal containment, the
behaviour the spec ascribes to `buscar_desenho`. -/
def spec_contains_icase (termo s : String) : Bool :=
  litSubstr termo.data s.data

/-- The characters Python's `re` treats as metacharacters. -/
def regexMeta : List Char :=
  ['.', '^', '$', '*', '+', '?', '\x7b', '\x7d', '[', ']', '\\', '|', '(', ')']

/-- Ascending order on digit strings by integer value — the sort key
`key=int` of line 327. -/
def intLe (a b : String) : Prop :=
  natOfDigits a.data ≤ natOfDigits b.data

instance : DecidableRel intLe :=
  fun a b => inferInstanceAs (Decidable (natOfDigits a.data ≤ natOfDigits b.data))

instance : IsTotal String intLe :=
  ⟨fun a b => Nat.le_total (natOfDigits a.data) (natOfDigits b.data)⟩

instance : IsTrans String intLe :=
  ⟨fun _ _ _ h1 h2 => Nat.le_trans h1 h2⟩

/-- Code-point lexicographic comparison of character lists — the order
Python's `<=` puts on strings. -/
def lexLe : List Char → List Char → Bool
  | [], _ => true
  | _ :: _, [] => false
  | a :: as, b :: bs =>
    if a.toNat < b.toNat then true
    else if b.toNat < a.toNat then false
    else lexLe as bs

/-- Python string `<=` (code-point lexicographic), as a relation on
`String`. -/
def pyStrLe (a b : String) : Prop :=
  lexLe a.data b.data = true

instance : DecidableRel pyStrLe :=
  fun a b => inferInstanceAs (Decidable (lexLe a.data b.data = true))

theorem lexLe_total : ∀ as bs : List Char, lexLe as bs = true ∨ lexLe bs as = true
  | [], _ => Or.inl rfl
  | _ :: _, [] => Or.inr rfl
  | a :: as, b :: bs => by
    by_cases hab : a.toNat < b.toNat
    · exact Or.inl (by simp [lexLe, hab])
    · by_cases hba : b.toNat < a.toNat
      · exact Or.inr (by simp [lexLe, hba])
      · rcases lexLe_total as bs with h | h
        · exact Or.inl (by simp [lexLe, hab, hba, h])
        · exact Or.inr (by simp [lexLe, hab, hba, h])

theorem lexLe_cons (a b : Char) (as bs : List Char) :
    lexLe (a :: as) (b :: bs) = true ↔
      a.toNat < b.toNat ∨ (a.toNat = b.toNat ∧ lexLe as bs = true) := by
  simp only [lexLe]
  split_ifs with h1 h2
  · exact iff_of_true rfl (Or.inl h1)
  · exact iff_of_false (by simp) (by rintro (h | ⟨h, _⟩) <;> omega)
  · have heq : a.toNat = b.toNat := by omega
    simp [heq]

theorem lexLe_trans :
    ∀ as bs cs : List Char, lexLe as bs = true → lexLe bs cs = true → lexLe as cs = true
  | [], _, _, _, _ => rfl
  | _ :: _, [], _, h1, _ => by simp [lexLe] at h1
  | _ :: _, _ :: _, [], _, h2 => by simp [lexLe] at h2
  | a :: as, b :: bs, c :: cs, h1, h2 => by
    rw [lexLe_cons] at h1 h2 ⊢
    rcases h1 with h1 | ⟨h1e, h1r⟩ <;> rcases h2 with h2 | ⟨h2e, h2r⟩
    · exact Or.inl (by omega)
    · exact Or.inl (by omega)
    · exact Or.inl (by omega)
    · exact Or.inr ⟨by omega, lexLe_trans as bs cs h1r h2r⟩

instance : IsTotal String pyStrLe :=
  ⟨fun a b => lexLe_total a.data b.data⟩

instance : IsTrans String pyStrLe :=
  ⟨fun _ _ _ h1 h2 => lexLe_trans _ _ _ h1 h2⟩

/-- Python `sorted(l, key=int)` of line 327: `int` is evaluated on every
element first (a `ValueError` on any element aborts the call, modelled by
`none`), then the list is sorted ascending by the integer keys; Python's
sort is stable, and stable ascending sorting under a total preorder is
exactly what insertion sort computes. -/
def sorted_key_int (l : List String) : Option (List String) :=
  if l.all (fun r => (int_py r).isSome) then some (l.insertionSort intLe) else none

/-- Lines 324-327 (`ordenar_revisoes`): split the labels into the all-digit
ones and the all-letter ones (each element is already a string, so the
`str(r)` coercions are identities), sort the digit ones by integer value,
sort the letter ones lexicographically (Python `sorted` on strings), and
concatenate.  The `Option` records where `sorted(..., key=int)` could raise;
labels of neither kind appear in neither group. -/
def ordenar_revisoes (revisoes : List String) : Option (List String) :=
  let numericas := revisoes.filter (fun r => pyIsDigitStr r)
  let letras := revisoes.filter (fun r => pyIsAlphaStr r)
  (sorted_key_int numericas).map (fun ns => ns ++ letras.insertionSort pyStrLe)

/-- Lines 358-360 of `main_app`: the guard `len(revisoes_ordenadas) > 0`
followed by the indexing `revisoes_ordenadas[-1]`; `none` models the guarded
branch, in which the app never indexes and reports no revision. -/
def ultima_revisao (revisoes_ordenadas : List String) : Option String :=
  if 0 < revisoes_ordenadas.length then revisoes_ordenadas.getLast? else none

theorem mk_data_eq (s : String) : String.mk s.data = s := by
  cases s
  rfl

theorem normaliza_eq_self (s : String) (h1 : 1 ≤ s.length) (h2 : s.length ≤ 5)
    (h3 : ∀ c ∈ s.data, c.isDigit = true) : normaliza_matricula s = s := by
  have hf : s.data.filter (fun c => c.isDigit) = s.data := List.filter_eq_self.mpr h3
  have hl : s.data.length = s.length := String.length_data s
  simp only [normaliza_matricula, re_sub_nondigits, hf, mk_data_eq, hl]
  rw [if_neg (by omega)]

theorem normaliza_cases (s : String) :
    normaliza_matricula s = "" ∨
      (1 ≤ (normaliza_matricula s).length ∧ (normaliza_matricula s).length ≤ 5 ∧
        ∀ c ∈ (normaliza_matricula s).data, c.isDigit = true) := by
  by_cases h : (re_sub_nondigits s).length = 0 ∨ 5 < (re_sub_nondigits s).length
  · exact Or.inl (by simp only [normaliza_matricula]; rw [if_pos h])
  · right
    have he : normaliza_matricula s = re_sub_nondigits s := by
      simp only [normaliza_matricula]
      rw [if_neg h]
    push_neg at h
    rw [he]
    refine ⟨by omega, by omega, ?_⟩
    intro c hc
    exact (List.mem_filter.mp (by simpa [re_sub_nondigits] using hc)).2

theorem normaliza_idem (s : String) :
    normaliza_matricula (normaliza_matricula s) = normaliza_matricula s := by
  rcases normaliza_cases s with h | ⟨h1, h2, h3⟩
  · rw [h]
    decide
  · exact normaliza_eq_self _ h1 h2 h3

theorem filter_head?_eq_find? {α : Type} (p : α → Bool) :
    ∀ l : List α, (l.filter p).head? = l.find? p
  | [] => rfl
  | a :: l => by
    by_cases h : p a = true
    · simp [List.filter_cons, List.find?_cons, h]
    · simp only [List.filter_cons, List.find?_cons, h]
      simp [h, filter_head?_eq_find? p l]

theorem int_py_isSome (r : String) (h : pyIsDigitStr r = true) : (int_py r).isSome = true := by
  simp [int_py, h]

theorem ordenar_revisoes_eq (revisoes : List String) :
    ordenar_revisoes revisoes =
      some ((revisoes.filter (fun r => pyIsDigitStr r)).insertionSort intLe ++
        (revisoes.filter (fun r => pyIsAlphaStr r)).insertionSort pyStrLe) := by
  have hall : (revisoes.filter (fun r => pyIsDigitStr r)).all
      (fun r => (int_py r).isSome) = true := by
    rw [List.all_eq_true]
    intro x hx
    exact int_py_isSome x (List.mem_filter.mp hx).2
  simp [ordenar_revisoes, sorted_key_int, hall]

theorem reMatchHere_eq_lit :
    ∀ pat text : List Char, '.' ∉ pat → reMatchHere pat text = litMatchHere pat text
  | [], _, _ => rfl
  | _ :: _, [], _ => rfl
  | p :: ps, c :: cs, h => by
    have hp : (p = '.') = False := by
      simp only [eq_iff_iff, iff_false]
      intro e
      exact h (e ▸ List.mem_cons_self p ps)
    have hrec := reMatchHere_eq_lit ps cs (fun hm => h (List.mem_cons_of_mem p hm))
    simp [reMatchHere, litMatchHere, charMatchICase, litCharICase, hp, hrec]

theorem re_search_eq_lit (pat : List Char) (h : '.' ∉ pat) :
    ∀ text : List Char, re_search pat text = litSubstr pat text
  | [] => reMatchHere_eq_lit pat [] h
  | c :: cs => by
    simp [re_search, litSubstr, reMatchHere_eq_lit pat (c :: cs) h,
      re_search_eq_lit pat h cs]

/-- C1: for every list of revision labels, `ordenar_revisoes` returns (without
raising) exactly the all-digit labels sorted ascending by integer value,
followed by exactly the all-letter labels sorted ascending by case-sensitive
code-point lexicographic order; in particular on `["B", "A", "3", "1"]` it
returns `["1", "3", "A", "B"]` and on `["2", "10", "1"]` it returns
`["1", "2", "10"]` (integer order, not lexicographic). -/
theorem claim_C1_ordenar_revisoes_blocks :
    (∀ revisoes : List String, ∃ ns ls : List String,
        ordenar_revisoes revisoes = some (ns ++ ls) ∧
        ns.Perm (revisoes.filter (fun r => pyIsDigitStr r)) ∧
        List.Sorted intLe ns ∧
        ls.Perm (revisoes.filter (fun r => pyIsAlphaStr r)) ∧
        List.Sorted pyStrLe ls) ∧
    ordenar_revisoes ["B", "A", "3", "1"] = some ["1", "3", "A", "B"] ∧
    ordenar_revisoes ["2", "10", "1"] = some ["1", "2", "10"] := by
  refine ⟨fun revisoes => ⟨_, _, ordenar_revisoes_eq revisoes, ?_, ?_, ?_, ?_⟩,
    by decide, by decide⟩
  · exact List.perm_insertionSort intLe _
  · exact List.sorted_insertionSort intLe _
  · exact List.perm_insertionSort pyStrLe _
  · exact List.sorted_insertionSort pyStrLe _

/-- C5: `ordenar_revisoes` always returns normally (`some`), and every label
that is neither all-digit nor all-letter — mixed, empty, punctuation — is
silently absent from the returned sequence. -/
theorem claim_C5_ordenar_revisoes_total_and_drops_malformed :
    (∀ revisoes : List String, (ordenar_revisoes revisoes).isSome = true) ∧
    (∀ (revisoes : List String) (r : String),
        pyIsDigitStr r = false → pyIsAlphaStr r = false →
        r ∉ (ordenar_revisoes revisoes).getD []) := by
  constructor
  · intro revisoes
    rw [ordenar_revisoes_eq revisoes]
    rfl
  · intro revisoes r hd ha hmem
    rw [ordenar_revisoes_eq revisoes] at hmem
    simp only [Option.getD_some, List.mem_append] at hmem
    rcases hmem with h | h
    · have := (List.mem_filter.mp ((List.mem_insertionSort intLe).mp h)).2
      rw [hd] at this
      cases this
    · have := (List.mem_filter.mp ((List.mem_insertionSort pyStrLe).mp h)).2
      rw [ha] at this
      cases this

/-- C5 witness: on the concrete input `["A1", "2"]` the call returns
normally and the mixed alphanumeric label `"A1"` is dropped. -/
theorem claim_C5_witness :
    "A1" ∉ (ordenar_revisoes ["A1", "2"]).getD [] ∧
      (ordenar_revisoes ["A1", "2"]).isSome = true :=
  ⟨claim_C5_ordenar_revisoes_total_and_drops_malformed.2 ["A1", "2"] "A1"
      (by decide) (by decide),
    claim_C5_ordenar_revisoes_total_and_drops_malformed.1 ["A1", "2"]⟩

/-- C6: `ultima_revisao` returns the last element of a non-empty ordered
revision sequence, and on the empty revision set `ordenar_revisoes` returns
the empty sequence, whose latest revision is absent (`none`). -/
theorem claim_C6_ultima_revisao_last_or_none :
    (∀ (l : List String) (h : l ≠ []), ultima_revisao l = some (l.getLast h)) ∧
    ordenar_revisoes [] = some [] ∧
    ultima_revisao [] = none := by
  refine ⟨?_, rfl, rfl⟩
  intro l h
  unfold ultima_revisao
  rw [if_pos (List.length_pos.mpr h), List.getLast?_eq_getLast l h]

/-- C6 witness: on the concrete ordered sequence `["1", "A"]` the latest
revision is `"A"`. -/
theorem claim_C6_witness : ultima_revisao ["1", "A"] = some "A" :=
  (claim_C6_ultima_revisao_last_or_none.1 ["1", "A"] (by decide)).trans rfl

/-- C3: `normaliza_matricula` keeps exactly the ASCII decimal digits of its
input, returns the Invalid marker `""` when 0 or more than 5 digits remain,
returns the digit string unchanged otherwise, leaves every 1-to-5-digit
string unchanged, and maps `"12a3"` to `"123"`. -/
theorem claim_C3_normaliza_strip_validate :
    (∀ s : String,
        ((s.data.filter (fun c => c.isDigit)).length = 0 ∨
            5 < (s.data.filter (fun c => c.isDigit)).length) →
        normaliza_matricula s = "") ∧
    (∀ s : String,
        1 ≤ (s.data.filter (fun c => c.isDigit)).length →
        (s.data.filter (fun c => c.isDigit)).length ≤ 5 →
        normaliza_matricula s = String.mk (s.data.filter (fun c => c.isDigit))) ∧
    (∀ s : String, 1 ≤ s.length → s.length ≤ 5 → (∀ c ∈ s.data, c.isDigit = true) →
        normaliza_matricula s = s) ∧
    normaliza_matricula "12a3" = "123" := by
  refine ⟨?_, ?_, normaliza_eq_self, by decide⟩
  · intro s h
    simp only [normaliza_matricula, re_sub_nondigits, String.length_mk]
    rw [if_pos h]
  · intro s h1 h2
    simp only [normaliza_matricula, re_sub_nondigits, String.length_mk]
    rw [if_neg (by omega)]

/-- C3 witness: six digits are rejected, a mixed string is stripped to its
digits, and a pure 3-digit string is returned unchanged. -/
theorem claim_C3_witness :
    normaliza_matricula "123456" = "" ∧
    normaliza_matricula "12a3" = String.mk ("12a3".data.filter (fun c => c.isDigit)) ∧
    normaliza_matricula "777" = "777" :=
  ⟨claim_C3_normaliza_strip_validate.1 "123456" (by decide),
    claim_C3_normaliza_strip_validate.2.1 "12a3" (by decide) (by decide),
    claim_C3_normaliza_strip_validate.2.2.1 "777" (by decide) (by decide) (by decide)⟩

/-- C9: `normaliza_matricula` is idempotent on every already-normalized
valid identifier (1 to 5 digits). -/
theorem claim_C9_normaliza_idempotent (x : String) (h1 : 1 ≤ x.length)
    (h2 : x.length ≤ 5) (h3 : ∀ c ∈ x.data, c.isDigit = true) :
    normaliza_matricula (normaliza_matricula x) = normaliza_matricula x := by
  rw [normaliza_eq_self x h1 h2 h3]
  exact normaliza_eq_self x h1 h2 h3

/-- C9 witness: idempotence at the concrete identifier `"042"`. -/
theorem claim_C9_witness :
    normaliza_matricula (normaliza_matricula "042") = normaliza_matricula "042" :=
  claim_C9_normaliza_idempotent "042" (by decide) (by decide) (by decide)

/-- C10: `normaliza_matricula` is total at its dynamic interface: `None`
yields the Invalid marker, and every other value is first coerced by `str()`
and then normalized exactly as a string argument would be — in particular a
string argument passes through `str()` unchanged.  Being a total Lean
function, the model returns a value on every input. -/
theorem claim_C10_normaliza_total_dynamic :
    normaliza_matricula_py PyVal.none = "" ∧
    (∀ v : PyVal, normaliza_matricula_py v = normaliza_matricula (str_py v)) ∧
    (∀ s : String, normaliza_matricula_py (PyVal.str s) = normaliza_matricula s) := by
  have key : ∀ v : PyVal, normaliza_matricula_py v = normaliza_matricula (str_py v) := by
    intro v
    cases v with
    | none => decide
    | str s => simp [normaliza_matricula_py, normaliza_matricula, str_py]
    | intV n => simp [normaliza_matricula_py, normaliza_matricula, str_py]
    | boolV b => cases b <;> simp [normaliza_matricula_py, normaliza_matricula, str_py]
  exact ⟨rfl, key, fun s => key (PyVal.str s)⟩

/-- C2 counterexample: on the whitelist `[{matricula := "7", ...}]` the
invalid-input call (`"abc"` normalizes to the Invalid marker) and the
not-found call (`"11111"` is valid but absent) both return the very same
value `none` — the two outcomes are not distinguishable in the function's
result, contrary to the claim. -/
theorem claim_C2_counterexample :
    normaliza_matricula "abc" = "" ∧
    normaliza_matricula "11111" = "11111" ∧
    buscar_usuario_por_matricula "abc" [⟨"7", "Jane Roe", "Inspector"⟩] = none ∧
    buscar_usuario_por_matricula "11111" [⟨"7", "Jane Roe", "Inspector"⟩] = none ∧
    buscar_usuario_por_matricula "abc" [⟨"7", "Jane Roe", "Inspector"⟩] =
      buscar_usuario_por_matricula "11111" [⟨"7", "Jane Roe", "Inspector"⟩] :=
  ⟨by decide, by decide, rfl, rfl, rfl⟩

/-- C2 as amended: when normalization yields the Invalid marker the lookup
returns `none` without consulting the whitelist (the result is the same for
every whitelist); otherwise the normalized identifier is looked up as an
exact key, returning the first matching entry or `none` when absent.  The
invalid-input and not-found outcomes are the same `none` value — the caller
(`login_view`) distinguishes invalid input by validating before calling. -/
theorem claim_C2_lookup_amended :
    (∀ (m_input : String) (wl wl' : List UserRow),
        normaliza_matricula m_input = "" →
        buscar_usuario_por_matricula m_input wl = none ∧
        buscar_usuario_por_matricula m_input wl = buscar_usuario_por_matricula m_input wl') ∧
    (∀ (m_input : String) (wl : List UserRow),
        normaliza_matricula m_input ≠ "" →
        buscar_usuario_por_matricula m_input wl =
          (wl.find? (fun r => r.matricula = normaliza_matricula m_input)).map
            (fun r => ⟨r.matricula, r.nome, r.funcao⟩)) := by
  constructor
  · intro m_input wl wl' h
    simp [buscar_usuario_por_matricula, h]
  · intro m_input wl h
    simp only [buscar_usuario_por_matricula]
    rw [if_neg h]
    rw [← filter_head?_eq_find?]
    cases hf : wl.filter (fun r => r.matricula = normaliza_matricula m_input) with
    | nil => rfl
    | cons r t => rfl

/-- C2 witness: both amended clauses at concrete inputs — `"x!"` (invalid)
returns `none` on the empty whitelist, and `"7"` is found by exact key
lookup. -/
theorem claim_C2_witness :
    buscar_usuario_por_matricula "x!" [] = none ∧
    buscar_usuario_por_matricula "7" [⟨"7", "Jane Roe", "Inspector"⟩] =
      (([⟨"7", "Jane Roe", "Inspector"⟩] : List UserRow).find?
          (fun r => r.matricula = normaliza_matricula "7")).map
        (fun r => ⟨r.matricula, r.nome, r.funcao⟩) :=
  ⟨(claim_C2_lookup_amended.1 "x!" [] [] (by decide)).1,
    claim_C2_lookup_amended.2 "7" [⟨"7", "Jane Roe", "Inspector"⟩] (by decide)⟩

/-- C7: authentication matches on exact string equality of normalized
identifiers: `"007"` normalizes to itself (no leading-zero stripping), a
whitelist containing key `"7"` but no key `"007"` yields the not-found
result for input `"007"`, and any found entry carries exactly the normalized
input as its key. -/
theorem claim_C7_exact_match_no_zero_stripping :
    normaliza_matricula "007" = "007" ∧
    (∀ wl : List UserRow,
        (∃ r ∈ wl, r.matricula = "7") → (∀ r ∈ wl, r.matricula ≠ "007") →
        buscar_usuario_por_matricula "007" wl = none) ∧
    (∀ (m_input : String) (wl : List UserRow) (e : UserRow),
        buscar_usuario_por_matricula m_input wl = some e →
        e.matricula = normaliza_matricula m_input ∧
        ∃ r ∈ wl, r.matricula = normaliza_matricula m_input) := by
  refine ⟨by decide, ?_, ?_⟩
  · intro wl _ hno
    have hm : normaliza_matricula "007" = "007" := by decide
    simp only [buscar_usuario_por_matricula, hm]
    rw [if_neg (by decide)]
    have hf : wl.filter (fun r => r.matricula = "007") = [] :=
      List.filter_eq_nil_iff.mpr (fun r hr => by simp [hno r hr])
    rw [hf]
  · intro m_input wl e h
    simp only [buscar_usuario_por_matricula] at h
    by_cases hm : normaliza_matricula m_input = ""
    · rw [if_pos hm] at h
      cases h
    · rw [if_neg hm] at h
      cases hf : wl.filter (fun r => r.matricula = normaliza_matricula m_input) with
      | nil => rw [hf] at h; cases h
      | cons r t =>
        rw [hf] at h
        have hr : r ∈ wl.filter (fun r => r.matricula = normaliza_matricula m_input) :=
          hf ▸ List.mem_cons_self r t
        have hr' := List.mem_filter.mp hr
        have he : e = ⟨r.matricula, r.nome, r.funcao⟩ := (Option.some_inj.mp h).symm
        refine ⟨?_, r, hr'.1, by simpa using hr'.2⟩
        rw [he]
        simpa using hr'.2

/-- C7 witness: on the concrete whitelist `[{matricula := "7", ...}]` the
input `"007"` is not found. -/
theorem claim_C7_witness :
    buscar_usuario_por_matricula "007" [⟨"7", "Jane Roe", "Inspector"⟩] = none :=
  claim_C7_exact_match_no_zero_stripping.2.1 [⟨"7", "Jane Roe", "Inspector"⟩]
    (by decide) (by decide)

/-- C8 counterexample: the form validation rejects `"12a3"` even though
normalization yields the valid identifier `"123"` — acceptance is NOT
equivalent to normalize-validity. -/
theorem claim_C8_counterexample :
    login_accepts "12a3" = false ∧ normaliza_matricula "12a3" = "123" :=
  ⟨by decide, by decide⟩

/-- C8 as amended: the form's acceptance rule is strictly stronger than
normalize-validity — it accepts exactly the strings that are non-empty fixed
points of `normaliza_matricula` (already 1 to 5 pure digits), so every
accepted input is normalize-invariant and yields a valid identifier; and
every row surviving the whitelist load has a normalize-invariant, non-Invalid
key.  Membership comparison is therefore always between two normalized
forms, but some raw strings (e.g. `"12a3"`) normalize to valid identifiers
yet are rejected by the form. -/
theorem claim_C8_form_vs_normalize_amended :
    (∀ s : String, login_accepts s = true ↔ (normaliza_matricula s = s ∧ s ≠ "")) ∧
    (∀ s : String, login_accepts s = true → normaliza_matricula s ≠ "") ∧
    (∀ rows : List UserRow, ∀ r ∈ carregar_whitelist rows,
        normaliza_matricula r.matricula = r.matricula ∧ r.matricula ≠ "") := by
  have hiff : ∀ s : String, login_accepts s = true ↔ (normaliza_matricula s = s ∧ s ≠ "") := by
    intro s
    constructor
    · intro h
      simp only [login_accepts, Bool.and_eq_true, decide_eq_true_eq,
        List.all_eq_true] at h
      obtain ⟨⟨hl1, hl2⟩, hd⟩ := h
      refine ⟨normaliza_eq_self s hl1 hl2 hd, ?_⟩
      intro hs
      rw [hs] at hl1
      simp at hl1
    · rintro ⟨he, hne⟩
      rcases normaliza_cases s with h0 | ⟨h1, h2, h3⟩
      · rw [he] at h0
        exact absurd h0 hne
      · rw [he] at h1 h2 h3
        simp only [login_accepts, Bool.and_eq_true, decide_eq_true_eq,
          List.all_eq_true]
        exact ⟨⟨h1, h2⟩, h3⟩
  refine ⟨hiff, ?_, ?_⟩
  · intro s h
    obtain ⟨he, hne⟩ := (hiff s).mp h
    rw [he]
    exact hne
  · intro rows r hr
    obtain ⟨r1, hr1, rfl⟩ := List.mem_map.mp hr
    obtain ⟨hmem, hpred⟩ := List.mem_filter.mp hr1
    obtain ⟨r0, _, rfl⟩ := List.mem_map.mp hmem
    constructor
    · simpa using normaliza_idem r0.matricula
    · simpa using hpred

/-- C8 witness: the accepted input `"31415"` is a fixed point of
normalization. -/
theorem claim_C8_witness : normaliza_matricula "31415" = "31415" :=
  ((claim_C8_form_vs_normalize_amended.1 "31415").mp (by decide)).1

/-- C4 counterexample: with the search term `"A.B"` the code returns the row
named `"AXB"` (the term is treated as a regular expression, `.` matching any
character), although `"AXB"` does not contain `"A.B"` as a case-insensitive
literal substring — the claim is false for terms holding regex
metacharacters. -/
theorem claim_C4_counterexample :
    buscar_desenho [⟨"AXB", "0"⟩] "A.B" = [⟨"AXB", "0"⟩] ∧
    spec_contains_icase "A.B" "AXB" = false :=
  ⟨by decide, by decide⟩

/-- C4 as amended: the code filters by case-insensitive REGEX search of the
term; for every term free of regex metacharacters this coincides with the
claimed behaviour — the returned rows are exactly those whose drawing-name
field contains the term as a case-insensitive literal substring. -/
theorem claim_C4_search_amended (df : List DrawingRow) (termo : String)
    (h : ∀ c ∈ termo.data, c ∉ regexMeta) :
    buscar_desenho df termo =
      df.filter (fun row => spec_contains_icase termo row.desenho) := by
  have hdot : '.' ∉ termo.data := fun hm => (h '.' hm) (by decide)
  unfold buscar_desenho
  apply List.filter_congr
  intro row _
  show str_contains_regex_icase termo row.desenho = spec_contains_icase termo row.desenho
  unfold str_contains_regex_icase spec_contains_icase
  exact re_search_eq_lit termo.data hdot row.desenho.data

/-- C4 witness: the metacharacter-free term `"m05b"` selects exactly the
rows containing it as a case-insensitive literal substring. -/
theorem claim_C4_witness :
    buscar_desenho [⟨"XAM05B-391", "2"⟩, ⟨"ZZZ", "1"⟩] "m05b" =
      ([⟨"XAM05B-391", "2"⟩, ⟨"ZZZ", "1"⟩] : List DrawingRow).filter
        (fun row => spec_contains_icase "m05b" row.desenho) :=
  claim_C4_search_amended [⟨"XAM05B-391", "2"⟩, ⟨"ZZZ", "1"⟩] "m05b" (by decide)
